import Mathlib

/-!
Verification of the text-classification engine in
`src/native/classifier_nif/src/lib.rs` (tokenizer, multinomial Naive Bayes
trainer with Laplace smoothing, log-space classifier, and the `train` /
`classify` NIF entry points).

Modelling conventions:
* Rust `f64` values are modelled as real numbers (`ℝ`); `f64::ln` and
  `f64::exp` become `Real.log` and `Real.exp`.
* Rust `HashMap` values are modelled as association lists with distinct keys
  (`List (key × value)` together with `List.lookup`); `HashSet` values as
  lists of distinct elements.  Where the iteration order of a `HashMap` is
  observable only up to reordering, the embedding fixes a canonical order.
* Rust `char::is_alphanumeric` and `str::to_lowercase` are Unicode
  properties; they are modelled on the character repertoire that occurs in
  the source and in this development: ASCII plus the accented Latin letters
  `ñ á é í ó ú ü` and their uppercase forms (on all of which the model agrees
  with Unicode).
-/

namespace Langler

/-- The accented characters whitelisted by `tokenize` (src line 36). -/
def accentWhitelist : List Char := ['ñ', 'á', 'é', 'í', 'ó', 'ú', 'ü']

/-- Uppercase forms of the whitelisted accents with their lowercase images,
used to model Unicode lowercasing on the relevant repertoire. -/
def upperAccents : List (Char × Char) :=
  [('Ñ', 'ñ'), ('Á', 'á'), ('É', 'é'), ('Í', 'í'), ('Ó', 'ó'), ('Ú', 'ú'), ('Ü', 'ü')]

/-- Model of Rust `char::is_alphanumeric` (a Unicode property) on the
character repertoire used here: ASCII alphanumerics plus the accented Latin
letters above, all of which are Unicode-alphanumeric. -/
def rustIsAlphanumeric (c : Char) : Bool :=
  c.isAlphanum || accentWhitelist.contains c || (upperAccents.map Prod.fst).contains c

/-- Model of Rust `str::to_lowercase`, character by character, on the same
repertoire: ASCII uppercase letters and uppercase accented letters map to
their lowercase forms, all other characters are unchanged. -/
def rustCharToLower (c : Char) : Char :=
  match upperAccents.lookup c with
  | some l => l
  | none => c.toLower

/-- The split predicate of `tokenize` (src line 36), verbatim:
`!c.is_alphanumeric() && c != 'ñ' && c != 'á' && c != 'é' && c != 'í' &&
c != 'ó' && c != 'ú' && c != 'ü'`. -/
def isSplitChar (c : Char) : Bool :=
  !(rustIsAlphanumeric c) && c != 'ñ' && c != 'á' && c != 'é' && c != 'í' &&
    c != 'ó' && c != 'ú' && c != 'ü'

/-- Model of Rust `str::split(p)` on a character list: the fragments lying
between separator characters, in order, including empty fragments produced by
leading, trailing or adjacent separators (so the result is always
non-empty, and splitting the empty string yields one empty fragment). -/
def splitP (p : Char → Bool) : List Char → List (List Char)
  | [] => [[]]
  | c :: cs =>
    match p c, splitP p cs with
    | true, rest => [] :: rest
    | false, [] => [[c]]
    | false, r :: rs => (c :: r) :: rs

/-- UTF-8 byte length of a character fragment; Rust `str::len` counts bytes,
not characters. -/
def utf8Len (l : List Char) : ℕ := (l.map Char.utf8Size).sum

/-- `tokenize` (src lines 34-40): lowercase the input, split on
`isSplitChar`, keep fragments that are non-empty and longer than 2 bytes. -/
def tokenize (text : String) : List String :=
  ((splitP isSplitChar (text.data.map rustCharToLower)).filter
    (fun s => !s.isEmpty && decide (2 < utf8Len s))).map (fun s => String.mk s)

/-- The tokenizer as the specification literally words it: split on any
character that is neither ASCII alphanumeric nor whitelisted, and drop any
token with at most 2 characters. -/
def tokenizeClaim (text : String) : List String :=
  ((splitP (fun c => !(c.isAlphanum || accentWhitelist.contains c))
      (text.data.map rustCharToLower)).filter
    (fun s => !s.isEmpty && decide (2 < s.length))).map (fun s => String.mk s)

/-- The tokenizer as amended: split on any character that is neither
alphanumeric (Unicode, per Rust `char::is_alphanumeric`) nor whitelisted, and
keep exactly the fragments whose UTF-8 byte length exceeds 2 (an empty
fragment has byte length 0, so the emptiness test is subsumed). -/
def tokenizeAmended (text : String) : List String :=
  (splitP (fun c => !(rustIsAlphanumeric c || accentWhitelist.contains c))
      (text.data.map rustCharToLower)).filterMap
    (fun s => if 2 < utf8Len s then some (String.mk s) else none)

theorem isSplitChar_eq (c : Char) :
    isSplitChar c = !(rustIsAlphanumeric c || accentWhitelist.contains c) := by
  simp only [isSplitChar, accentWhitelist, Bool.not_or, List.contains, List.elem, bne]
  cases rustIsAlphanumeric c <;>
    cases c == 'ñ' <;> cases c == 'á' <;> cases c == 'é' <;> cases c == 'í' <;>
    cases c == 'ó' <;> cases c == 'ú' <;> cases c == 'ü' <;> rfl

theorem filter_len_map_eq_filterMap (l : List (List Char)) :
    (l.filter (fun s => !s.isEmpty && decide (2 < utf8Len s))).map (fun s => String.mk s)
      = l.filterMap (fun s => if 2 < utf8Len s then some (String.mk s) else none) := by
  induction l with
  | nil => rfl
  | cons f fs ih =>
    by_cases h : 2 < utf8Len f
    · have hne : f.isEmpty = false := by
        rcases f with _ | ⟨c, cs⟩
        · simp [utf8Len] at h
        · rfl
      simp [List.filter_cons, List.filterMap_cons, h, hne, ih]
    · simp [List.filter_cons, List.filterMap_cons, h, ih]

/-- C5 (counterexample): the input `"áé"` consists of two whitelisted
characters, so neither the code nor the claim splits it; it has 2 characters
but 4 UTF-8 bytes, so the code keeps it as a token while the claimed
2-character length filter would drop it. -/
theorem tokenize_length_counterexample :
    tokenize "áé" = ["áé"] ∧ ("áé" : String).data.length ≤ 2 ∧ tokenizeClaim "áé" = [] := by
  refine ⟨by decide, by decide, by decide⟩

/-- C5 (amended): for every input string, `tokenize` lowercases the input,
splits on every character that is neither alphanumeric (Unicode, per Rust
`char::is_alphanumeric`) nor one of the whitelist `ñ á é í ó ú ü`, and keeps
exactly the fragments whose UTF-8 byte length exceeds 2; any string input,
including the empty string, yields a (possibly empty) token sequence. -/
theorem tokenize_spec (text : String) : tokenize text = tokenizeAmended text := by
  have hp : isSplitChar = fun c => !(rustIsAlphanumeric c || accentWhitelist.contains c) :=
    funext isSplitChar_eq
  rw [tokenize, tokenizeAmended, hp, filter_len_map_eq_filterMap]

/-- A training document (src lines 14-18). -/
structure Document where
  content : String
  topics : List String
deriving DecidableEq

/-- Training data (src lines 8-12); the `HashSet` vocabulary is modelled as a
list of distinct tokens. -/
structure TrainingData where
  documents : List Document
  vocabulary : List String
deriving DecidableEq

/-- The trained model (src lines 21-31); each `HashMap` is modelled as an
association list with distinct keys.  The stored `f64` values are modelled as
rationals: every value train produces, and every finite value a JSON model
can carry, is rational; logarithms and exponentials appear only inside
classification, where these values are cast into `ℝ`. -/
structure NaiveBayesModel where
  topic_priors : List (String × ℚ)
  word_given_topic : List (String × List (String × ℚ))
  vocabulary_size : ℕ
  topic_word_counts : List (String × ℕ)
deriving DecidableEq

/-- Per-topic document count accumulated by the training loop (src line 56):
each occurrence of `topic` in a document topic list adds one. -/
def docCount (docs : List Document) (topic : String) : ℕ :=
  (docs.map (fun d => d.topics.count topic)).sum

/-- The tokens of a document that pass the vocabulary test (src line 63). -/
def vocabFilter (vocab : List String) (tokens : List String) : List String :=
  tokens.filter (fun tok => vocab.contains tok)

/-- Raw count of `word` under `topic` accumulated by the training loop
(src line 64): each occurrence of `topic` in a document topic list
contributes every in-vocabulary occurrence of `word` in that document. -/
def wordCount (docs : List Document) (vocab : List String) (topic word : String) : ℕ :=
  (docs.map (fun d =>
    d.topics.count topic * (vocabFilter vocab (tokenize d.content)).count word)).sum

/-- Total in-vocabulary word occurrences attributed to `topic` (src line 65). -/
def topicWordCount (docs : List Document) (vocab : List String) (topic : String) : ℕ :=
  (docs.map (fun d =>
    d.topics.count topic * (vocabFilter vocab (tokenize d.content)).length)).sum

/-- The topics that receive an entry in the three per-topic maps: every topic
occurring in some document topic list (the loop at src lines 54-60 inserts an
entry for each).  `HashMap` iteration order is arbitrary; the embedding fixes
the canonical order produced by `List.dedup`. -/
def topicsOf (docs : List Document) : List String :=
  (docs.flatMap (fun d => d.topics)).dedup

/-- The words that receive an entry in the word-count table of `topic`:
in-vocabulary tokens of documents carrying `topic` (src lines 62-66), again in
a canonical order. -/
def topicTableKeys (docs : List Document) (vocab : List String) (topic : String) : List String :=
  ((docs.filter (fun d => d.topics.contains topic)).flatMap
    (fun d => vocabFilter vocab (tokenize d.content))).dedup

/-- `train_naive_bayes` (src lines 43-101): priors are per-topic document
counts divided by `documents.len()`; word probabilities are Laplace-smoothed
`(count + 1) / (total_words + vocabulary_size)`. -/
def train_naive_bayes (td : TrainingData) : NaiveBayesModel :=
  { topic_priors := (topicsOf td.documents).map
      (fun t => (t, (docCount td.documents t : ℚ) / (td.documents.length : ℚ)))
    word_given_topic := (topicsOf td.documents).map
      (fun t => (t, (topicTableKeys td.documents td.vocabulary t).map
        (fun w => (w, ((wordCount td.documents td.vocabulary t w : ℚ) + 1)
          / ((topicWordCount td.documents td.vocabulary t : ℚ) + (td.vocabulary.length : ℚ))))))
    vocabulary_size := td.vocabulary.length
    topic_word_counts := (topicsOf td.documents).map
      (fun t => (t, topicWordCount td.documents td.vocabulary t)) }

theorem sum_map_ite_zero (a : String) (T : List String) (ha : a ∉ T) :
    (T.map (fun t => if a = t then 1 else 0)).sum = 0 := by
  induction T with
  | nil => rfl
  | cons t ts ih =>
    have h1 : a ≠ t := fun h => ha (h ▸ List.mem_cons_self t ts)
    have h2 : a ∉ ts := fun h => ha (List.mem_cons_of_mem t h)
    simp [h1, ih h2]

theorem sum_map_ite_one (a : String) (T : List String) (hnd : T.Nodup) (ha : a ∈ T) :
    (T.map (fun t => if a = t then 1 else 0)).sum = 1 := by
  induction T with
  | nil => exact absurd ha (List.not_mem_nil a)
  | cons t ts ih =>
    rcases List.mem_cons.mp ha with h | h
    · subst h
      simp [sum_map_ite_zero a ts (List.nodup_cons.mp hnd).1]
    · have h1 : a ≠ t := fun he => (List.nodup_cons.mp hnd).1 (he ▸ h)
      simp [h1, ih (List.nodup_cons.mp hnd).2 h]

/-- Summing the multiplicities of the members of a duplicate-free superset of
a list recovers the length of the list. -/
theorem sum_map_count_eq_length (T : List String) (hnd : T.Nodup) :
    ∀ l : List String, (∀ a ∈ l, a ∈ T) → (T.map (fun t => l.count t)).sum = l.length := by
  intro l
  induction l with
  | nil => intro _; simp
  | cons a l ih =>
    intro hsub
    have ha : a ∈ T := hsub a (List.mem_cons_self a l)
    have hsub2 : ∀ x ∈ l, x ∈ T := fun x hx => hsub x (List.mem_cons_of_mem a hx)
    simp only [List.count_cons, beq_iff_eq]
    rw [List.sum_map_add, ih hsub2, sum_map_ite_one a T hnd ha]
    simp

/-- Summing the per-topic document counters over the distinct topics recovers
the total number of topic-document associations. -/
theorem sum_map_docCount (T : List String) (hnd : T.Nodup) :
    ∀ ds : List Document, (∀ d ∈ ds, ∀ a ∈ d.topics, a ∈ T) →
      (T.map (fun t => docCount ds t)).sum = (ds.map (fun d => d.topics.length)).sum := by
  intro ds
  induction ds with
  | nil => intro _; simp [docCount]
  | cons d ds ih =>
    intro hsub
    have h1 : ∀ a ∈ d.topics, a ∈ T := hsub d (List.mem_cons_self d ds)
    have h2 : ∀ x ∈ ds, ∀ a ∈ x.topics, a ∈ T := fun x hx => hsub x (List.mem_cons_of_mem d hx)
    have hstep : (fun t => docCount (d :: ds) t)
        = fun t => d.topics.count t + docCount ds t := by
      funext t; simp [docCount]
    rw [hstep, List.sum_map_add, ih h2, sum_map_count_eq_length T hnd d.topics h1]
    simp [Nat.add_comm]

theorem mem_topicsOf {docs : List Document} {t : String} :
    t ∈ topicsOf docs ↔ ∃ d ∈ docs, t ∈ d.topics := by
  simp [topicsOf, List.mem_dedup, List.mem_flatMap]

theorem docCount_pos {docs : List Document} {t : String} (h : t ∈ topicsOf docs) :
    1 ≤ docCount docs t := by
  rcases mem_topicsOf.mp h with ⟨d, hd, ht⟩
  have h1 : 1 ≤ d.topics.count t := List.one_le_count_iff.mpr ht
  have h2 : d.topics.count t ≤ docCount docs t :=
    List.single_le_sum (fun x _ => Nat.zero_le x) _
      (List.mem_map_of_mem (fun d => d.topics.count t) hd)
  exact le_trans h1 h2

theorem docCount_le_length {docs : List Document} (t : String)
    (hnd : ∀ d ∈ docs, d.topics.Nodup) : docCount docs t ≤ docs.length := by
  have h1 : docCount docs t ≤ (docs.map (fun _ => 1)).sum :=
    List.sum_le_sum (fun d hd => (List.nodup_iff_count_le_one.mp (hnd d hd)) t)
  have h2 : (docs.map (fun _ => 1)).sum = docs.length := by
    induction docs with
    | nil => rfl
    | cons d ds ih => simp_all [Nat.add_comm]
  exact h1.trans h2.le

/-- C3 (amended): for a training set of accepted documents, at least one and
each with a duplicate-free topic list, every stored prior equals
`doc_count[topic] / total_documents` with `total_documents` the number of
accepted documents, lies in `(0, 1]`, and the priors sum to the number of
distinct topic-document associations scaled by `1 / total_documents`. -/
theorem topic_priors_spec (td : TrainingData) (hne : td.documents ≠ [])
    (hnd : ∀ d ∈ td.documents, d.topics.Nodup) :
    (∀ tp ∈ (train_naive_bayes td).topic_priors,
        tp.2 = (docCount td.documents tp.1 : ℚ) / (td.documents.length : ℚ) ∧
          0 < tp.2 ∧ tp.2 ≤ 1) ∧
      ((train_naive_bayes td).topic_priors.map Prod.snd).sum
        = ((td.documents.map (fun d => d.topics.length)).sum : ℚ)
            / (td.documents.length : ℚ) := by
  have hlen : (0 : ℚ) < (td.documents.length : ℚ) := by
    exact_mod_cast List.length_pos.mpr hne
  have hsub : ∀ d ∈ td.documents, ∀ a ∈ d.topics, a ∈ topicsOf td.documents :=
    fun d hd a ha => mem_topicsOf.mpr ⟨d, hd, ha⟩
  constructor
  · rintro ⟨t, p⟩ hmem
    simp only [train_naive_bayes] at hmem
    rcases List.mem_map.mp hmem with ⟨t0, ht0, heq⟩
    injection heq with h1 h2
    subst h1
    subst h2
    refine ⟨rfl, ?_, ?_⟩
    · exact div_pos (by exact_mod_cast lt_of_lt_of_le one_pos (docCount_pos ht0)) hlen
    · exact (div_le_one hlen).mpr (by exact_mod_cast docCount_le_length t0 hnd)
  · simp only [train_naive_bayes, List.map_map]
    have hcomp : (Prod.snd ∘ fun t =>
        (t, (docCount td.documents t : ℚ) / (td.documents.length : ℚ)))
        = fun t => (docCount td.documents t : ℚ) / (td.documents.length : ℚ) := rfl
    rw [hcomp]
    simp only [div_eq_mul_inv]
    rw [List.sum_map_mul_right]
    have hcast : ((topicsOf td.documents).map
        (fun t => (docCount td.documents t : ℚ))).sum
        = (((topicsOf td.documents).map (fun t => docCount td.documents t)).sum : ℚ) := by
      rw [Nat.cast_list_sum, List.map_map]
      rfl
    rw [hcast, sum_map_docCount (topicsOf td.documents) (List.nodup_dedup _)
      td.documents hsub, Nat.cast_list_sum, List.map_map]
    rfl

/-- A concrete valid training set for the C3 witness. -/
def tdC3 : TrainingData := ⟨[⟨"xxx", ["t"]⟩], ["xxx"]⟩

/-- Witness for `topic_priors_spec` at a concrete one-document training set. -/
theorem topic_priors_spec_witness :
    tdC3.documents ≠ [] ∧ (∀ d ∈ tdC3.documents, d.topics.Nodup) ∧
      ((train_naive_bayes tdC3).topic_priors.map Prod.snd).sum
        = ((tdC3.documents.map (fun d => d.topics.length)).sum : ℚ)
            / (tdC3.documents.length : ℚ) :=
  ⟨by decide, by decide, (topic_priors_spec tdC3 (by decide) (by decide)).2⟩

/-- A training set whose single document lists the same topic twice. -/
def tdDup : TrainingData := ⟨[⟨"xxx", ["t", "t"]⟩], ["xxx"]⟩

/-- C3 (counterexample): a document listing the same topic twice makes that
topic's stored prior `2 / 1 = 2`, which lies outside `(0, 1]`, and the prior
sum exceeds the distinct topic-document association count scaled by
`1 / total_documents`. -/
theorem topic_priors_counterexample :
    ("t", (2 : ℚ)) ∈ (train_naive_bayes tdDup).topic_priors ∧ ¬ ((2 : ℚ) ≤ 1) := by
  constructor
  · have h1 : topicsOf tdDup.documents = ["t"] := by decide
    have hc : docCount tdDup.documents "t" = 2 := by decide
    simp only [train_naive_bayes, h1, List.map_cons, List.map_nil, hc]
    norm_num [tdDup]
  · norm_num

theorem wordCount_le_topicWordCount (docs : List Document) (vocab : List String)
    (topic word : String) :
    wordCount docs vocab topic word ≤ topicWordCount docs vocab topic :=
  List.sum_le_sum (fun _ _ => Nat.mul_le_mul_left _ (List.count_le_length word _))

theorem mem_vocab_of_mem_topicTableKeys {docs : List Document} {vocab : List String}
    {topic w : String} (h : w ∈ topicTableKeys docs vocab topic) : w ∈ vocab := by
  rcases List.mem_flatMap.mp (List.mem_dedup.mp h) with ⟨d, hd, hw⟩
  have h2 := (List.mem_filter.mp hw).2
  simpa [List.contains] using h2

/-- C4 (amended): every stored per-topic word probability equals
`(count(word,topic) + 1) / (total_words(topic) + vocabulary_size)`, is
strictly positive and at most `1`; it is strictly below `1` whenever the
vocabulary holds at least two words (with a one-word vocabulary a stored
probability can equal exactly `1`). -/
theorem word_probs_spec (td : TrainingData) :
    ∀ e ∈ (train_naive_bayes td).word_given_topic, ∀ wp ∈ e.2,
      wp.2 = ((wordCount td.documents td.vocabulary e.1 wp.1 : ℚ) + 1)
          / ((topicWordCount td.documents td.vocabulary e.1 : ℚ) + (td.vocabulary.length : ℚ))
        ∧ 0 < wp.2 ∧ wp.2 ≤ 1 ∧ (2 ≤ td.vocabulary.length → wp.2 < 1) := by
  rintro ⟨t, tbl⟩ hmem ⟨w, p⟩ hwp
  simp only [train_naive_bayes] at hmem
  rcases List.mem_map.mp hmem with ⟨t0, ht0, heq⟩
  injection heq with h1 h2
  subst h1
  subst h2
  rcases List.mem_map.mp hwp with ⟨w0, hw0, heq2⟩
  injection heq2 with h3 h4
  subst h3
  subst h4
  have hwv : w0 ∈ td.vocabulary := mem_vocab_of_mem_topicTableKeys hw0
  have hv1 : 1 ≤ td.vocabulary.length := List.length_pos.mpr (List.ne_nil_of_mem hwv)
  have hv1q : (1 : ℚ) ≤ (td.vocabulary.length : ℚ) := by exact_mod_cast hv1
  have hcle : (wordCount td.documents td.vocabulary t0 w0 : ℚ)
      ≤ (topicWordCount td.documents td.vocabulary t0 : ℚ) := by
    exact_mod_cast wordCount_le_topicWordCount td.documents td.vocabulary t0 w0
  have hcnn : (0 : ℚ) ≤ (wordCount td.documents td.vocabulary t0 w0 : ℚ) := by positivity
  have hden : (0 : ℚ)
      < (topicWordCount td.documents td.vocabulary t0 : ℚ) + (td.vocabulary.length : ℚ) := by
    nlinarith
  refine ⟨rfl, ?_, ?_, ?_⟩
  · exact div_pos (by positivity) hden
  · exact (div_le_one hden).mpr (by nlinarith)
  · intro h2v
    have h2q : (2 : ℚ) ≤ (td.vocabulary.length : ℚ) := by exact_mod_cast h2v
    exact (div_lt_one hden).mpr (by nlinarith)

/-- The vocabulary `train` builds: the distinct tokens of the accepted
documents (src lines 186-190). -/
def vocabOf (docs : List Document) : List String :=
  (docs.flatMap (fun d => tokenize d.content)).dedup

/-- A concrete two-word training set for the C4 witness. -/
def docsC4 : List Document := [⟨"aaa bbb", ["t"]⟩]

/-- Training data as `train` would assemble it for `docsC4`. -/
def tdC4 : TrainingData := ⟨docsC4, vocabOf docsC4⟩

theorem word_table_tdC4 :
    (train_naive_bayes tdC4).word_given_topic
      = [("t", [("aaa", (1/2 : ℚ)), ("bbb", (1/2 : ℚ))])] := by
  have h1 : topicsOf tdC4.documents = ["t"] := by decide
  have h2 : topicTableKeys tdC4.documents tdC4.vocabulary "t" = ["aaa", "bbb"] := by decide
  have h3 : wordCount tdC4.documents tdC4.vocabulary "t" "aaa" = 1 := by decide
  have h4 : wordCount tdC4.documents tdC4.vocabulary "t" "bbb" = 1 := by decide
  have h5 : topicWordCount tdC4.documents tdC4.vocabulary "t" = 2 := by decide
  have h6 : tdC4.vocabulary.length = 2 := by decide
  simp only [train_naive_bayes, h1, List.map_cons, List.map_nil, h2, h3, h4, h5, h6]
  norm_num

/-- Witness for `word_probs_spec`: on the two-word training set, the stored
probability of each word is `(1 + 1) / (2 + 2) = 1/2`, inside `(0, 1)`. -/
theorem word_probs_spec_witness :
    (("t", [("aaa", (1/2 : ℚ)), ("bbb", (1/2 : ℚ))])
        ∈ (train_naive_bayes tdC4).word_given_topic)
      ∧ (("aaa", (1/2 : ℚ)) ∈ [("aaa", (1/2 : ℚ)), ("bbb", (1/2 : ℚ))])
      ∧ 2 ≤ tdC4.vocabulary.length ∧ 0 < (1/2 : ℚ) ∧ (1/2 : ℚ) < 1 := by
  have hm : ("t", [("aaa", (1/2 : ℚ)), ("bbb", (1/2 : ℚ))])
      ∈ (train_naive_bayes tdC4).word_given_topic := by
    rw [word_table_tdC4]
    exact List.mem_singleton.mpr rfl
  have hm2 : ("aaa", (1/2 : ℚ)) ∈ [("aaa", (1/2 : ℚ)), ("bbb", (1/2 : ℚ))] :=
    List.mem_cons_self _ _
  have h := word_probs_spec tdC4 _ hm _ hm2
  exact ⟨hm, hm2, by decide, h.2.1, h.2.2.2 (by decide)⟩

/-- A training set whose vocabulary holds exactly one word. -/
def docsOne : List Document := [⟨"aaa aaa", ["t"]⟩]

/-- Training data as `train` would assemble it for `docsOne`. -/
def tdOneWord : TrainingData := ⟨docsOne, vocabOf docsOne⟩

theorem word_table_tdOneWord :
    (train_naive_bayes tdOneWord).word_given_topic = [("t", [("aaa", (1 : ℚ))])] := by
  have h1 : topicsOf tdOneWord.documents = ["t"] := by decide
  have h2 : topicTableKeys tdOneWord.documents tdOneWord.vocabulary "t" = ["aaa"] := by decide
  have h3 : wordCount tdOneWord.documents tdOneWord.vocabulary "t" "aaa" = 2 := by decide
  have h4 : topicWordCount tdOneWord.documents tdOneWord.vocabulary "t" = 2 := by decide
  have h5 : tdOneWord.vocabulary.length = 1 := by decide
  simp only [train_naive_bayes, h1, List.map_cons, List.map_nil, h2, h3, h4, h5]
  norm_num

/-- C4 (counterexample): with the one-word vocabulary of `docsOne` the stored
probability of `"aaa"` is `(2 + 1) / (2 + 1) = 1`, which is not strictly
below `1`. -/
theorem word_probs_counterexample :
    ("t", [("aaa", (1 : ℚ))]) ∈ (train_naive_bayes tdOneWord).word_given_topic
      ∧ ¬ ((1 : ℚ) < 1) := by
  constructor
  · rw [word_table_tdOneWord]
    exact List.mem_singleton.mpr rfl
  · norm_num

/-- One token's contribution to a topic's log score when the topic has a word
probability table (src lines 117-124): `ln` of the stored probability when
the table has the token, and otherwise the recomputed Laplace floor
`ln(1 / (topic_word_counts[topic] + vocabulary_size))` with a missing
`topic_word_counts` entry read as `0` (src line 121). -/
noncomputable def wordTerm (model : NaiveBayesModel) (topic : String)
    (word_probs : List (String × ℚ)) (token : String) : ℝ :=
  match word_probs.lookup token with
  | some prob => Real.log (prob : ℝ)
  | none => Real.log (1 /
      (((model.topic_word_counts.lookup topic).getD 0 : ℝ) + (model.vocabulary_size : ℝ)))

/-- The log score of one topic (src lines 110-128): the log of the prior
plus, for each token in order, `wordTerm` when `word_given_topic` has a table
for the topic — and nothing at all for a topic with no table. -/
noncomputable def logScore (model : NaiveBayesModel) (topic : String) (prior : ℚ)
    (tokens : List String) : ℝ :=
  tokens.foldl (fun acc token =>
    match model.word_given_topic.lookup topic with
    | some word_probs => acc + wordTerm model topic word_probs token
    | none => acc) (Real.log (prior : ℝ))

/-- The scored topic list (src lines 108-130), in the model's key order. -/
noncomputable def scoredTopics (model : NaiveBayesModel) (tokens : List String) :
    List (String × ℝ) :=
  model.topic_priors.map (fun tp => (tp.1, logScore model tp.1 tp.2 tokens))

/-- `iter().fold(f64::NEG_INFINITY, f64::max)` (src line 133).  For a
non-empty list this is the maximum of its entries; the `NEG_INFINITY` seed of
the empty fold is modelled by an arbitrary junk value, unobservable
downstream because an empty model yields no scores to shift. -/
noncomputable def maxLogProb : List ℝ → ℝ
  | [] => 0
  | x :: xs => xs.foldl max x

/-- The exponentiated, max-shifted scores (src lines 134-140). -/
noncomputable def expScores (model : NaiveBayesModel) (tokens : List String) :
    List (String × ℝ) :=
  (scoredTopics model tokens).map
    (fun tp => (tp.1, Real.exp (tp.2 - maxLogProb ((scoredTopics model tokens).map Prod.snd))))

/-- The normalization denominator (src line 143). -/
noncomputable def expSum (model : NaiveBayesModel) (tokens : List String) : ℝ :=
  ((expScores model tokens).map Prod.snd).sum

/-- The guarded normalization (src lines 144-149): divide by the sum only
when it is positive, otherwise leave the scores un-normalized. -/
noncomputable def normScores (model : NaiveBayesModel) (tokens : List String) :
    List (String × ℝ) :=
  if 0 < expSum model tokens then
    (expScores model tokens).map (fun tp => (tp.1, tp.2 / expSum model tokens))
  else expScores model tokens

/-- The final stable descending sort (src line 152).  Rust `sort_by` is a
stable sort whose comparator here orders by descending confidence, treating
incomparable pairs as equal; any two stable sorts agree, so it is modelled by
`List.mergeSort` keeping `a` before `b` exactly when `b.1 <= a.1` fails to
force a swap. -/
noncomputable def sortByScoreDesc (l : List (String × ℝ)) : List (String × ℝ) :=
  l.mergeSort (fun a b => decide (b.2 ≤ a.2))

/-- `classify_naive_bayes` (src lines 104-155). -/
noncomputable def classify_naive_bayes (model : NaiveBayesModel) (document : String) :
    List (String × ℝ) :=
  sortByScoreDesc (normScores model (tokenize document))

theorem scoredTopics_map_fst (model : NaiveBayesModel) (tokens : List String) :
    (scoredTopics model tokens).map Prod.fst = model.topic_priors.map Prod.fst := by
  rw [scoredTopics, List.map_map]
  rfl

theorem expScores_map_fst (model : NaiveBayesModel) (tokens : List String) :
    (expScores model tokens).map Prod.fst = model.topic_priors.map Prod.fst := by
  rw [expScores, List.map_map]
  exact scoredTopics_map_fst model tokens

theorem normScores_map_fst (model : NaiveBayesModel) (tokens : List String) :
    (normScores model tokens).map Prod.fst = model.topic_priors.map Prod.fst := by
  by_cases h : 0 < expSum model tokens
  · rw [normScores, if_pos h, List.map_map]
    exact expScores_map_fst model tokens
  · rw [normScores, if_neg h]
    exact expScores_map_fst model tokens

theorem mem_expScores_pos (model : NaiveBayesModel) (tokens : List String) :
    ∀ e ∈ expScores model tokens, 0 < e.2 := by
  rintro ⟨t, x⟩ hmem
  rcases List.mem_map.mp hmem with ⟨tp, _, heq⟩
  injection heq with h1 h2
  subst h2
  exact Real.exp_pos _

theorem expSum_pos (model : NaiveBayesModel) (tokens : List String)
    (hne : model.topic_priors ≠ []) : 0 < expSum model tokens := by
  apply List.sum_pos
  · intro x hx
    rcases List.mem_map.mp hx with ⟨e, he, rfl⟩
    exact mem_expScores_pos model tokens e he
  · have h1 : expScores model tokens ≠ [] := by
      rw [expScores]
      simp [scoredTopics, hne]
    simpa using h1

theorem expSum_eq_zero_iff (model : NaiveBayesModel) (tokens : List String) :
    expSum model tokens = 0 ↔ model.topic_priors = [] := by
  constructor
  · intro h
    by_contra hne
    exact absurd h (ne_of_gt (expSum_pos model tokens hne))
  · intro h
    simp [expSum, expScores, scoredTopics, h]

theorem classify_perm (model : NaiveBayesModel) (document : String) :
    (classify_naive_bayes model document).Perm (normScores model (tokenize document)) := by
  rw [classify_naive_bayes, sortByScoreDesc]
  exact List.mergeSort_perm _ _

theorem classify_map_fst_perm (model : NaiveBayesModel) (document : String) :
    ((classify_naive_bayes model document).map Prod.fst).Perm
      (model.topic_priors.map Prod.fst) := by
  have h := (classify_perm model document).map Prod.fst
  rwa [normScores_map_fst] at h

theorem classify_sorted (model : NaiveBayesModel) (document : String) :
    List.Pairwise (fun a b : String × ℝ => b.2 ≤ a.2) (classify_naive_bayes model document) := by
  rw [classify_naive_bayes, sortByScoreDesc]
  refine List.Pairwise.imp ?_
    (List.sorted_mergeSort ?_ ?_ (normScores model (tokenize document)))
  · intro a b h
    exact of_decide_eq_true h
  · intro a b c hab hbc
    simp only [decide_eq_true_eq] at *
    exact le_trans hbc hab
  · intro a b
    simp only [Bool.or_eq_true, decide_eq_true_eq]
    exact le_total b.2 a.2

theorem classify_mem_bounds (model : NaiveBayesModel) (document : String) :
    ∀ e ∈ classify_naive_bayes model document, 0 ≤ e.2 ∧ e.2 ≤ 1 := by
  intro e he
  have hmem : e ∈ normScores model (tokenize document) :=
    (classify_perm model document).mem_iff.mp he
  rw [normScores] at hmem
  by_cases h : 0 < expSum model (tokenize document)
  · rw [if_pos h] at hmem
    rcases List.mem_map.mp hmem with ⟨tp, htp, heq⟩
    have hpos := mem_expScores_pos model (tokenize document) tp htp
    have hle : tp.2 ≤ expSum model (tokenize document) := by
      apply List.single_le_sum
      · intro x hx
        rcases List.mem_map.mp hx with ⟨e2, he2, rfl⟩
        exact le_of_lt (mem_expScores_pos _ _ e2 he2)
      · exact List.mem_map_of_mem Prod.snd htp
    rw [← heq]
    exact ⟨div_nonneg (le_of_lt hpos) (le_of_lt h), (div_le_one h).mpr hle⟩
  · rw [if_neg h] at hmem
    have hne : model.topic_priors ≠ [] := by
      intro hnil
      rw [expScores, scoredTopics, hnil] at hmem
      simp at hmem
    exact absurd (expSum_pos model (tokenize document) hne) h

theorem classify_sum_eq_one (model : NaiveBayesModel) (document : String)
    (hne : model.topic_priors ≠ []) :
    ((classify_naive_bayes model document).map Prod.snd).sum = 1 := by
  have hs := expSum_pos model (tokenize document) hne
  have hperm := (classify_perm model document).map Prod.snd
  have hsum : ((normScores model (tokenize document)).map Prod.snd).sum = 1 := by
    rw [normScores, if_pos hs, List.map_map]
    have hcomp : (Prod.snd ∘ fun tp : String × ℝ =>
        (tp.1, tp.2 / expSum model (tokenize document)))
        = fun tp : String × ℝ => tp.2 * (expSum model (tokenize document))⁻¹ := by
      funext tp
      exact div_eq_mul_inv _ _
    rw [hcomp, List.sum_map_mul_right]
    show expSum model (tokenize document) * (expSum model (tokenize document))⁻¹ = 1
    exact mul_inv_cancel₀ (ne_of_gt hs)
  rw [List.Perm.sum_eq hperm, hsum]

theorem classify_count (model : NaiveBayesModel) (document : String)
    (hnd : (model.topic_priors.map Prod.fst).Nodup) :
    ∀ t ∈ model.topic_priors.map Prod.fst,
      ((classify_naive_bayes model document).map Prod.fst).count t = 1 := by
  intro t ht
  rw [List.Perm.count_eq (classify_map_fst_perm model document) t]
  exact List.count_eq_one_of_mem hnd ht

/-- C1 (confirmed): for every model (whose `HashMap` key list is
duplicate-free, as every Rust `HashMap` is) and every document, `classify`
returns exactly one entry per topic key of `topic_priors` (the returned key
multiset is a permutation of the model's and each key occurs once), sorted by
descending confidence, with every confidence in `[0, 1]`; and for a non-empty
model with at least one topic of nonzero probability mass the confidences sum
to exactly `1`. -/
theorem classify_contract (model : NaiveBayesModel) (document : String)
    (hnd : (model.topic_priors.map Prod.fst).Nodup) :
    ((classify_naive_bayes model document).map Prod.fst).Perm
        (model.topic_priors.map Prod.fst)
      ∧ (∀ t ∈ model.topic_priors.map Prod.fst,
          ((classify_naive_bayes model document).map Prod.fst).count t = 1)
      ∧ List.Pairwise (fun a b : String × ℝ => b.2 ≤ a.2)
          (classify_naive_bayes model document)
      ∧ (∀ e ∈ classify_naive_bayes model document, 0 ≤ e.2 ∧ e.2 ≤ 1)
      ∧ (model.topic_priors ≠ [] → (∃ tp ∈ model.topic_priors, tp.2 ≠ 0) →
          ((classify_naive_bayes model document).map Prod.snd).sum = 1) :=
  ⟨classify_map_fst_perm model document, classify_count model document hnd,
    classify_sorted model document, classify_mem_bounds model document,
    fun hne _ => classify_sum_eq_one model document hne⟩

/-- A concrete one-topic model. -/
def mOne : NaiveBayesModel := ⟨[("a", 1)], [], 0, []⟩

/-- Witness for `classify_contract` at the one-topic model and the empty
document. -/
theorem classify_contract_witness :
    (mOne.topic_priors.map Prod.fst).Nodup ∧ mOne.topic_priors ≠ []
      ∧ (("a", (1 : ℚ)) ∈ mOne.topic_priors ∧ (1 : ℚ) ≠ 0)
      ∧ ((classify_naive_bayes mOne "").map Prod.snd).sum = 1 := by
  have hnd : (mOne.topic_priors.map Prod.fst).Nodup := by decide
  have hmem : ("a", (1 : ℚ)) ∈ mOne.topic_priors := List.mem_cons_self _ _
  exact ⟨hnd, List.cons_ne_nil _ _, ⟨hmem, one_ne_zero⟩,
    (classify_contract mOne "" hnd).2.2.2.2 (List.cons_ne_nil _ _)
      ⟨("a", (1 : ℚ)), hmem, one_ne_zero⟩⟩

/-- C6 (confirmed): log scores are turned into confidences by subtracting the
maximum log score, exponentiating, and dividing by the sum of the
exponentiated scores; the sum is zero exactly in the degenerate case of a
model with no topics, in which case the scores are left un-normalized (the
output is empty) — the division branch runs only when the sum is positive,
so `classify` never divides by a zero sum. -/
theorem classify_normalization (model : NaiveBayesModel) (document : String) :
    (expSum model (tokenize document) = 0 ↔ model.topic_priors = [])
      ∧ (model.topic_priors = [] → classify_naive_bayes model document = [])
      ∧ (model.topic_priors ≠ [] →
          0 < expSum model (tokenize document)
            ∧ classify_naive_bayes model document
              = sortByScoreDesc ((expScores model (tokenize document)).map
                  (fun tp => (tp.1, tp.2 / expSum model (tokenize document))))) := by
  refine ⟨expSum_eq_zero_iff model (tokenize document), ?_, ?_⟩
  · intro h
    have h0 : expSum model (tokenize document) = 0 :=
      (expSum_eq_zero_iff model (tokenize document)).mpr h
    have hsc : expScores model (tokenize document) = [] := by
      simp [expScores, scoredTopics, h]
    rw [classify_naive_bayes, normScores, h0, if_neg (lt_irrefl 0), hsc, sortByScoreDesc,
      List.mergeSort_nil]
  · intro hne
    have hs := expSum_pos model (tokenize document) hne
    exact ⟨hs, by rw [classify_naive_bayes, normScores, if_pos hs]⟩

/-- A model with no topics at all. -/
def mNil : NaiveBayesModel := ⟨[], [], 0, []⟩

/-- Witness for `classify_normalization`: the one-topic model takes the
normalizing branch, the empty model the degenerate one. -/
theorem classify_normalization_witness :
    mOne.topic_priors ≠ [] ∧ 0 < expSum mOne (tokenize "")
      ∧ mNil.topic_priors = [] ∧ classify_naive_bayes mNil "" = [] :=
  ⟨List.cons_ne_nil _ _,
    ((classify_normalization mOne "").2.2 (List.cons_ne_nil _ _)).1,
    rfl, (classify_normalization mNil "").2.1 rfl⟩

theorem foldl_add_sum (f : String → ℝ) (tokens : List String) :
    ∀ acc : ℝ, tokens.foldl (fun acc token => acc + f token) acc = acc + (tokens.map f).sum := by
  induction tokens with
  | nil => intro acc; simp
  | cons t ts ih =>
    intro acc
    simp only [List.foldl_cons, List.map_cons, List.sum_cons]
    rw [ih]
    ring

theorem foldl_keep (tokens : List String) : ∀ acc : ℝ,
    tokens.foldl (fun acc _ => acc) acc = acc := by
  induction tokens with
  | nil => intro acc; rfl
  | cons t ts ih => intro acc; exact ih acc

theorem logScore_foldl (model : NaiveBayesModel) (topic : String)
    (wp : List (String × ℚ)) (h : model.word_given_topic.lookup topic = some wp)
    (tokens : List String) (acc : ℝ) :
    tokens.foldl (fun acc token =>
      match model.word_given_topic.lookup topic with
      | some word_probs => acc + wordTerm model topic word_probs token
      | none => acc) acc
      = acc + (tokens.map (wordTerm model topic wp)).sum := by
  have hfun : (fun (acc : ℝ) (token : String) =>
      match model.word_given_topic.lookup topic with
      | some word_probs => acc + wordTerm model topic word_probs token
      | none => acc) = fun acc token => acc + wordTerm model topic wp token := by
    funext acc token
    rw [h]
  rw [hfun]
  exact foldl_add_sum _ tokens acc

theorem logScore_foldl_none (model : NaiveBayesModel) (topic : String)
    (h : model.word_given_topic.lookup topic = none)
    (tokens : List String) (acc : ℝ) :
    tokens.foldl (fun acc token =>
      match model.word_given_topic.lookup topic with
      | some word_probs => acc + wordTerm model topic word_probs token
      | none => acc) acc = acc := by
  have hfun : (fun (acc : ℝ) (token : String) =>
      match model.word_given_topic.lookup topic with
      | some word_probs => acc + wordTerm model topic word_probs token
      | none => acc) = fun (acc : ℝ) (_ : String) => acc := by
    funext acc token
    rw [h]
  rw [hfun]
  exact foldl_keep tokens acc

/-- C2 (amended): during classification scoring, for every topic that has a
word-probability table in `word_given_topic` (as every topic of a trained
model does), every token of the tokenized query document contributes exactly
one term to the topic's log score — `ln` of the stored probability when the
table has the token, and `ln(1 / (topic_word_counts[topic] +
vocabulary_size))` otherwise; for a topic with no table at all, however, no
token contributes any term and the score stays at the log prior. -/
theorem logScore_spec (model : NaiveBayesModel) (topic : String) (prior : ℚ)
    (tokens : List String) :
    (∀ wp, model.word_given_topic.lookup topic = some wp →
        logScore model topic prior tokens
          = Real.log (prior : ℝ) + (tokens.map (wordTerm model topic wp)).sum)
      ∧ (model.word_given_topic.lookup topic = none →
        logScore model topic prior tokens = Real.log (prior : ℝ)) := by
  constructor
  · intro wp h
    rw [logScore]
    exact logScore_foldl model topic wp h tokens _
  · intro h
    rw [logScore]
    exact logScore_foldl_none model topic h tokens _

/-- A concrete model whose topic `"a"` has a one-word probability table. -/
def mC2 : NaiveBayesModel := ⟨[("a", 1)], [("a", [("foo", 1/2)])], 1, [("a", 1)]⟩

/-- Witness for `logScore_spec` at a concrete model and document. -/
theorem logScore_spec_witness :
    mC2.word_given_topic.lookup "a" = some [("foo", (1/2 : ℚ))]
      ∧ logScore mC2 "a" 1 (tokenize "foo")
        = Real.log ((1 : ℚ) : ℝ)
            + ((tokenize "foo").map (wordTerm mC2 "a" [("foo", (1/2 : ℚ))])).sum :=
  ⟨rfl, (logScore_spec mC2 "a" 1 (tokenize "foo")).1 [("foo", (1/2 : ℚ))] rfl⟩

/-- The scoring step as the claim words it: a token absent from the topic's
word-probability table — including the case of a topic with no table at all,
read as an empty table — always contributes the recomputed Laplace floor. -/
noncomputable def claimLogScore (model : NaiveBayesModel) (topic : String) (prior : ℚ)
    (tokens : List String) : ℝ :=
  Real.log (prior : ℝ)
    + (tokens.map
        (wordTerm model topic ((model.word_given_topic.lookup topic).getD []))).sum

/-- A deserializable model whose topic `"a"` has a prior but no entry in
`word_given_topic`, with vocabulary size 2. -/
def mBad : NaiveBayesModel := ⟨[("a", 1)], [], 2, []⟩

/-- C2 (counterexample): on the model `mBad` and the one-token document
`"abc"`, the code adds no term for the token (the topic has no
word-probability table), leaving the score at `ln 1 = 0`, while the claimed
rule would add the Laplace floor `ln(1 / (0 + 2)) < 0`. -/
theorem logScore_counterexample :
    logScore mBad "a" 1 (tokenize "abc") ≠ claimLogScore mBad "a" 1 (tokenize "abc") := by
  have htok : tokenize "abc" = ["abc"] := by decide
  have h1 : logScore mBad "a" 1 (tokenize "abc") = 0 := by
    rw [logScore, htok]
    have hnone : mBad.word_given_topic.lookup "a" = none := rfl
    rw [logScore_foldl_none mBad "a" hnone ["abc"]]
    simp
  have h2 : claimLogScore mBad "a" 1 (tokenize "abc") = Real.log ((1 : ℝ) / 2) := by
    rw [claimLogScore, htok]
    have hget : (mBad.word_given_topic.lookup "a").getD [] = [] := rfl
    rw [hget]
    have hterm : wordTerm mBad "a" [] "abc" = Real.log ((1 : ℝ) / 2) := by
      rw [wordTerm]
      norm_num [mBad]
    simp [hterm]
  rw [h1, h2]
  have hlt : Real.log ((1 : ℝ) / 2) < 0 := Real.log_neg (by norm_num) (by norm_num)
  exact ne_of_gt hlt

/-- A training record as decoded from the host term (src lines 169-179):
either field is `none` when its key is missing or its value fails to
decode. -/
structure RawDoc where
  content : Option String
  topics : Option (List String)
deriving DecidableEq

/-- The per-document acceptance test of `train` (src lines 181-184): keep a
document exactly when both fields decoded and both are non-empty. -/
def acceptDoc (r : RawDoc) : Option Document :=
  match r.content, r.topics with
  | some c, some t => if !c.isEmpty && !t.isEmpty then some ⟨c, t⟩ else none
  | _, _ => none

/-- The accepted documents of a decoded input list, in order; the `continue`
at src line 183 silently skips the rest. -/
def acceptedDocs (raws : List RawDoc) : List Document := raws.filterMap acceptDoc

/-- Modelled from the spec: the JSON wire form of a model.  Serialization
(src line 203, `serde_json::to_string`) and deserialization (src line 213,
`serde_json::from_str`) are external library calls missing from the sources;
per the spec the blob is opaque and "round-trip fidelity of all four fields
(floating-point values, nested mappings) is preserved exactly", so a blob is
modelled as either a faithful encoding of a model or a malformed blob. -/
inductive SerializedModel where
  | enc (m : NaiveBayesModel)
  | malformed (s : String)

/-- Modelled from the spec: `serde_json::to_string` at src line 203; total on
models, as every trained model serializes. -/
def serializeModel (m : NaiveBayesModel) : SerializedModel := SerializedModel.enc m

/-- Modelled from the spec: `serde_json::from_str` at src line 213 with the
`map_err` message wrapping of the source. -/
def deserializeModel : SerializedModel → Except String NaiveBayesModel
  | SerializedModel.enc m => Except.ok m
  | SerializedModel.malformed s => Except.error ("Failed to deserialize model: " ++ s)

/-- The `train` NIF (src lines 158-208) after term decoding: filter the
documents, build the vocabulary from the accepted ones, fail when none
remain, otherwise train and serialize. -/
def trainNif (raws : List RawDoc) : Except String SerializedModel :=
  let docs := acceptedDocs raws
  if docs.isEmpty then Except.error "No valid training documents"
  else Except.ok (serializeModel (train_naive_bayes ⟨docs, vocabOf docs⟩))

/-- The `classify` NIF (src lines 210-217): deserialize the model — a hard
error when that fails — then classify. -/
noncomputable def classifyNif (document : String) (model_json : SerializedModel) :
    Except String (List (String × ℝ)) :=
  match deserializeModel model_json with
  | Except.error e => Except.error e
  | Except.ok m => Except.ok (classify_naive_bayes m document)

/-- C7 (confirmed): `train` fails with the explicit "no valid training data"
error precisely when no document survives the emptiness filter; a malformed
document among valid ones is silently dropped, and with at least one accepted
document training succeeds using exactly the accepted ones. -/
theorem train_error_iff (raws : List RawDoc) :
    (trainNif raws = Except.error "No valid training documents"
        ↔ acceptedDocs raws = [])
      ∧ (acceptedDocs raws ≠ [] →
          trainNif raws = Except.ok (serializeModel
            (train_naive_bayes ⟨acceptedDocs raws, vocabOf (acceptedDocs raws)⟩)))
      ∧ (∀ r, acceptDoc r = none → trainNif (r :: raws) = trainNif raws) := by
  refine ⟨?_, ?_, ?_⟩
  · by_cases h : acceptedDocs raws = []
    · simp [trainNif, List.isEmpty_iff, h]
    · simp [trainNif, List.isEmpty_iff, h]
  · intro h
    simp [trainNif, List.isEmpty_iff, h]
  · intro r hr
    have hsame : acceptedDocs (r :: raws) = acceptedDocs raws := by
      simp [acceptedDocs, List.filterMap_cons, hr]
    rw [trainNif, trainNif, hsame]

/-- A malformed record (empty content) and a valid record. -/
def rawBad : RawDoc := ⟨some "", some ["t"]⟩

/-- A valid record. -/
def rawGood : RawDoc := ⟨some "xxx yyy", some ["t"]⟩

/-- Witness for `train_error_iff`: one invalid and one valid document —
training succeeds using only the valid one, and prepending the invalid
record changes nothing. -/
theorem train_error_iff_witness :
    acceptedDocs [rawBad, rawGood] ≠ [] ∧ acceptDoc rawBad = none
      ∧ acceptedDocs [rawBad, rawGood] = [⟨"xxx yyy", ["t"]⟩]
      ∧ trainNif [rawBad, rawGood] = Except.ok (serializeModel (train_naive_bayes
          ⟨acceptedDocs [rawBad, rawGood], vocabOf (acceptedDocs [rawBad, rawGood])⟩))
      ∧ trainNif (rawBad :: [rawGood]) = trainNif [rawGood] :=
  ⟨by decide, by decide, by decide,
    (train_error_iff [rawBad, rawGood]).2.1 (by decide),
    (train_error_iff [rawGood]).2.2 rawBad (by decide)⟩

/-- C8 (confirmed, wire form spec-modelled): `classify` fails exactly when
the model blob fails to deserialize, propagating that error with no fallback
classification; for a model that deserializes, it returns the classification
of the decoded model covering the full topic set, with no partial-success
mode. -/
theorem classify_error_iff (document : String) (blob : SerializedModel) :
    ((classifyNif document blob).isOk = (deserializeModel blob).isOk)
      ∧ (∀ e, deserializeModel blob = Except.error e →
          classifyNif document blob = Except.error e)
      ∧ (∀ m, deserializeModel blob = Except.ok m →
          classifyNif document blob = Except.ok (classify_naive_bayes m document)
            ∧ ((classify_naive_bayes m document).map Prod.fst).Perm
                (m.topic_priors.map Prod.fst)) := by
  refine ⟨?_, ?_, ?_⟩
  · cases blob <;> rfl
  · intro e he
    cases blob with
    | enc m0 => simp [deserializeModel] at he
    | malformed s =>
      simp only [deserializeModel, Except.error.injEq] at he
      simp [classifyNif, deserializeModel, he]
  · intro m hm
    cases blob with
    | enc m0 =>
      have hm0 : m0 = m := by simpa [deserializeModel] using hm
      subst hm0
      exact ⟨rfl, classify_map_fst_perm m0 document⟩
    | malformed s => simp [deserializeModel] at hm

/-- Witness for `classify_error_iff`: a well-formed blob classifies, a
malformed blob reproduces the deserialization error. -/
theorem classify_error_iff_witness :
    deserializeModel (serializeModel mOne) = Except.ok mOne
      ∧ classifyNif "" (serializeModel mOne) = Except.ok (classify_naive_bayes mOne "")
      ∧ deserializeModel (SerializedModel.malformed "x")
          = Except.error ("Failed to deserialize model: " ++ "x")
      ∧ classifyNif "" (SerializedModel.malformed "x")
          = Except.error ("Failed to deserialize model: " ++ "x") :=
  ⟨rfl, ((classify_error_iff "" (serializeModel mOne)).2.2 mOne rfl).1, rfl,
    (classify_error_iff "" (SerializedModel.malformed "x")).2.1 _ rfl⟩

/-- C9 (confirmed, wire form spec-modelled): deserializing the serialized
model produced by a successful `train` recovers the trained model exactly, so
the round-tripped model classifies every document identically to the
in-memory one. -/
theorem train_roundtrip (raws : List RawDoc) (wire : SerializedModel) (document : String)
    (h : trainNif raws = Except.ok wire) :
    deserializeModel wire
        = Except.ok (train_naive_bayes ⟨acceptedDocs raws, vocabOf (acceptedDocs raws)⟩)
      ∧ ∀ m, deserializeModel wire = Except.ok m →
          classify_naive_bayes m document
            = classify_naive_bayes
                (train_naive_bayes ⟨acceptedDocs raws, vocabOf (acceptedDocs raws)⟩)
                document := by
  have hwire : wire = serializeModel
      (train_naive_bayes ⟨acceptedDocs raws, vocabOf (acceptedDocs raws)⟩) := by
    by_cases hd : (acceptedDocs raws).isEmpty
    · rw [trainNif] at h
      simp [hd] at h
    · rw [trainNif] at h
      simp only [hd, Bool.false_eq_true, if_false, Except.ok.injEq] at h
      exact h.symm
  subst hwire
  refine ⟨rfl, ?_⟩
  intro m hm
  have hm2 : train_naive_bayes ⟨acceptedDocs raws, vocabOf (acceptedDocs raws)⟩ = m := by
    simpa [serializeModel, deserializeModel] using hm
  rw [hm2]

/-- The input list for the C9 witness. -/
def rawsC9 : List RawDoc := [rawGood]

/-- Witness for `train_roundtrip` at a concrete one-document training run. -/
theorem train_roundtrip_witness :
    trainNif rawsC9 = Except.ok (serializeModel
        (train_naive_bayes ⟨acceptedDocs rawsC9, vocabOf (acceptedDocs rawsC9)⟩))
      ∧ deserializeModel (serializeModel
          (train_naive_bayes ⟨acceptedDocs rawsC9, vocabOf (acceptedDocs rawsC9)⟩))
        = Except.ok (train_naive_bayes ⟨acceptedDocs rawsC9, vocabOf (acceptedDocs rawsC9)⟩) := by
  have h : trainNif rawsC9 = Except.ok (serializeModel
      (train_naive_bayes ⟨acceptedDocs rawsC9, vocabOf (acceptedDocs rawsC9)⟩)) := rfl
  exact ⟨h, (train_roundtrip rawsC9 _ "" h).1⟩

/-- C10 (confirmed): a document whose content is non-empty but tokenizes to
no tokens is still accepted by `train`: it increments each listed topic's
document counter (so it is counted in the prior numerator), is counted in the
`total_documents` denominator, and contributes zero word counts to every
topic. -/
theorem empty_token_doc_spec (c : String) (ts : List String) (ds : List Document)
    (hc : c ≠ "") (ht : ts ≠ []) (htok : tokenize c = []) :
    acceptDoc ⟨some c, some ts⟩ = some ⟨c, ts⟩
      ∧ (∀ topic, docCount (ds ++ [⟨c, ts⟩]) topic = docCount ds topic + ts.count topic)
      ∧ (∀ vocab topic word, wordCount (ds ++ [⟨c, ts⟩]) vocab topic word
          = wordCount ds vocab topic word)
      ∧ (∀ vocab topic, topicWordCount (ds ++ [⟨c, ts⟩]) vocab topic
          = topicWordCount ds vocab topic)
      ∧ (∀ vocab, (train_naive_bayes ⟨ds ++ [⟨c, ts⟩], vocab⟩).topic_priors
          = (topicsOf (ds ++ [⟨c, ts⟩])).map (fun t =>
              (t, ((docCount ds t + ts.count t : ℕ) : ℚ) / ((ds.length + 1 : ℕ) : ℚ)))) := by
  have hce : c.isEmpty = false := by
    rcases hb : c.isEmpty with _ | _
    · rfl
    · exact absurd (String.isEmpty_iff c |>.mp hb) hc
  have hte : ts.isEmpty = false := by
    rcases hb : ts.isEmpty with _ | _
    · rfl
    · exact absurd (List.isEmpty_iff.mp hb) ht
  have hdc : ∀ topic, docCount (ds ++ [⟨c, ts⟩]) topic
      = docCount ds topic + ts.count topic := by
    intro topic
    simp [docCount, List.map_append, List.sum_append]
  refine ⟨?_, hdc, ?_, ?_, ?_⟩
  · rw [acceptDoc]
    simp [hce, hte]
  · intro vocab topic word
    simp [wordCount, List.map_append, List.sum_append, htok, vocabFilter]
  · intro vocab topic
    simp [topicWordCount, List.map_append, List.sum_append, htok, vocabFilter]
  · intro vocab
    simp only [train_naive_bayes]
    apply List.map_congr_left
    intro t _
    rw [hdc t]
    have hlen : (ds ++ [(⟨c, ts⟩ : Document)]).length = ds.length + 1 := by
      simp
    rw [hlen]

/-- Witness for `empty_token_doc_spec`: the two-byte content `"ab"` is
non-empty yet yields no tokens. -/
theorem empty_token_doc_witness :
    ("ab" : String) ≠ "" ∧ (["t"] : List String) ≠ [] ∧ tokenize "ab" = []
      ∧ acceptDoc ⟨some "ab", some ["t"]⟩ = some ⟨"ab", ["t"]⟩
      ∧ docCount ([] ++ [⟨"ab", ["t"]⟩]) "t"
          = docCount [] "t" + (["t"] : List String).count "t" := by
  have h := empty_token_doc_spec "ab" ["t"] [] (by decide) (by decide) (by decide)
  exact ⟨by decide, by decide, by decide, h.1, h.2.1 "t"⟩

end Langler
